import Mathlib

set_option maxRecDepth 100000

/-!
Verification of the pow-account proof-of-work core (src/lib.rs).

The embedding models bytes as natural numbers below 256 and 32-byte
buffers as lists of length 32.  Machine arithmetic is modelled on Nat
with explicit reductions: `% 256` for `u8` wrap-around, and a masked
shift count together with `% 2 ^ 32` / `% 2 ^ 128` reductions for the
wider words, matching Rust release semantics.  The debug (checked)
semantics, in which overflowing arithmetic panics, is modelled by
`Option`-valued variants returning `none` where the Rust code would
panic.

External collaborators of the crate are embedded from their reference
definitions:
* `blake2s` is BLAKE2s-256 (RFC 7693, unkeyed, 32-byte digest), the
  `Blake2s256` hasher used by `Entropy::hash`.  It is written in
  continuation-passing style, with every 32-bit word forced to a
  numeral at each step, so that its applications reduce inside the
  kernel; it is validated below against the byte-for-byte test vector
  found in the repository's own test `blake2s_hash_can_be_validated`.
* `decodeHex32` and `hexEncode` follow the `hex` crate's
  `decode_to_slice` (with a 32-byte output buffer) and `encode`,
  including its error taxonomy and error precedence.  Input text is
  modelled as a list of characters (the byte sequence, for ASCII
  input).
-/

/-! ## BLAKE2s-256 -/

/-- Forces a natural number to a numeral before passing it on; this is
an identity function used to keep kernel reduction shallow. -/
def seqN (n : Nat) (k : Nat → α) : α :=
  match n with
  | 0 => k 0
  | m + 1 => k (m + 1)

def rotr32 (x r : Nat) : Nat :=
  ((x >>> r) ||| (x <<< (32 - r))) % 4294967296

def add32 (a b : Nat) : Nat := (a + b) % 4294967296

/-- The BLAKE2s mixing function G (RFC 7693 §3.1) on four state words
`va vb vc vd` and two message words `x y`, with rotation constants
16, 12, 8, 7. -/
def gMixK (va vb vc vd x y : Nat) (k : Nat → Nat → Nat → Nat → α) : α :=
  seqN (add32 (add32 va vb) x) fun a1 =>
  seqN (rotr32 (vd ^^^ a1) 16) fun d1 =>
  seqN (add32 vc d1) fun c1 =>
  seqN (rotr32 (vb ^^^ c1) 12) fun b1 =>
  seqN (add32 (add32 a1 b1) y) fun a2 =>
  seqN (rotr32 (d1 ^^^ a2) 8) fun d2 =>
  seqN (add32 c1 d2) fun c2 =>
  seqN (rotr32 (b1 ^^^ c2) 7) fun b2 =>
  k a2 b2 c2 d2

/-- One BLAKE2s round: eight applications of G on the columns and the
diagonals of the 4×4 state.  The message words `x0 y0 … x7 y7` are
supplied by the caller already permuted by the round's sigma row. -/
def roundK (x0 y0 x1 y1 x2 y2 x3 y3 x4 y4 x5 y5 x6 y6 x7 y7 : Nat)
    (v0 v1 v2 v3 v4 v5 v6 v7 v8 v9 v10 v11 v12 v13 v14 v15 : Nat)
    (k : Nat → Nat → Nat → Nat → Nat → Nat → Nat → Nat →
      Nat → Nat → Nat → Nat → Nat → Nat → Nat → Nat → α) : α :=
  gMixK v0 v4 v8 v12 x0 y0 fun v0 v4 v8 v12 =>
  gMixK v1 v5 v9 v13 x1 y1 fun v1 v5 v9 v13 =>
  gMixK v2 v6 v10 v14 x2 y2 fun v2 v6 v10 v14 =>
  gMixK v3 v7 v11 v15 x3 y3 fun v3 v7 v11 v15 =>
  gMixK v0 v5 v10 v15 x4 y4 fun v0 v5 v10 v15 =>
  gMixK v1 v6 v11 v12 x5 y5 fun v1 v6 v11 v12 =>
  gMixK v2 v7 v8 v13 x6 y6 fun v2 v7 v8 v13 =>
  gMixK v3 v4 v9 v14 x7 y7 fun v3 v4 v9 v14 =>
  k v0 v1 v2 v3 v4 v5 v6 v7 v8 v9 v10 v11 v12 v13 v14 v15

/-- The BLAKE2s compression function F (RFC 7693 §3.2) for the single
final block of a short message: `t` is the message byte count, the
final-block flag is set (`v14 = IV6 xor 0xFFFFFFFF = 0xE07C2654`), and
the ten rounds use the sigma permutation schedule of RFC 7693 §2.7,
spelled out at each call site. -/
def blakeCompressK (t : Nat)
    (m0 m1 m2 m3 m4 m5 m6 m7 m8 m9 m10 m11 m12 m13 m14 m15 : Nat)
    (h0 h1 h2 h3 h4 h5 h6 h7 : Nat)
    (k : Nat → Nat → Nat → Nat → Nat → Nat → Nat → Nat → α) : α :=
  seqN (0x510E527F ^^^ t) fun v12 =>
  roundK m0 m1 m2 m3 m4 m5 m6 m7 m8 m9 m10 m11 m12 m13 m14 m15 h0 h1 h2 h3 h4 h5 h6 h7 0x6A09E667 0xBB67AE85 0x3C6EF372 0xA54FF53A v12 0x9B05688C 0xE07C2654 0x5BE0CD19 fun v0 v1 v2 v3 v4 v5 v6 v7 v8 v9 v10 v11 v12 v13 v14 v15 =>
  roundK m14 m10 m4 m8 m9 m15 m13 m6 m1 m12 m0 m2 m11 m7 m5 m3 v0 v1 v2 v3 v4 v5 v6 v7 v8 v9 v10 v11 v12 v13 v14 v15 fun v0 v1 v2 v3 v4 v5 v6 v7 v8 v9 v10 v11 v12 v13 v14 v15 =>
  roundK m11 m8 m12 m0 m5 m2 m15 m13 m10 m14 m3 m6 m7 m1 m9 m4 v0 v1 v2 v3 v4 v5 v6 v7 v8 v9 v10 v11 v12 v13 v14 v15 fun v0 v1 v2 v3 v4 v5 v6 v7 v8 v9 v10 v11 v12 v13 v14 v15 =>
  roundK m7 m9 m3 m1 m13 m12 m11 m14 m2 m6 m5 m10 m4 m0 m15 m8 v0 v1 v2 v3 v4 v5 v6 v7 v8 v9 v10 v11 v12 v13 v14 v15 fun v0 v1 v2 v3 v4 v5 v6 v7 v8 v9 v10 v11 v12 v13 v14 v15 =>
  roundK m9 m0 m5 m7 m2 m4 m10 m15 m14 m1 m11 m12 m6 m8 m3 m13 v0 v1 v2 v3 v4 v5 v6 v7 v8 v9 v10 v11 v12 v13 v14 v15 fun v0 v1 v2 v3 v4 v5 v6 v7 v8 v9 v10 v11 v12 v13 v14 v15 =>
  roundK m2 m12 m6 m10 m0 m11 m8 m3 m4 m13 m7 m5 m15 m14 m1 m9 v0 v1 v2 v3 v4 v5 v6 v7 v8 v9 v10 v11 v12 v13 v14 v15 fun v0 v1 v2 v3 v4 v5 v6 v7 v8 v9 v10 v11 v12 v13 v14 v15 =>
  roundK m12 m5 m1 m15 m14 m13 m4 m10 m0 m7 m6 m3 m9 m2 m8 m11 v0 v1 v2 v3 v4 v5 v6 v7 v8 v9 v10 v11 v12 v13 v14 v15 fun v0 v1 v2 v3 v4 v5 v6 v7 v8 v9 v10 v11 v12 v13 v14 v15 =>
  roundK m13 m11 m7 m14 m12 m1 m3 m9 m5 m0 m15 m4 m8 m6 m2 m10 v0 v1 v2 v3 v4 v5 v6 v7 v8 v9 v10 v11 v12 v13 v14 v15 fun v0 v1 v2 v3 v4 v5 v6 v7 v8 v9 v10 v11 v12 v13 v14 v15 =>
  roundK m6 m15 m14 m9 m11 m3 m0 m8 m12 m2 m13 m7 m1 m4 m10 m5 v0 v1 v2 v3 v4 v5 v6 v7 v8 v9 v10 v11 v12 v13 v14 v15 fun v0 v1 v2 v3 v4 v5 v6 v7 v8 v9 v10 v11 v12 v13 v14 v15 =>
  roundK m10 m2 m8 m4 m7 m6 m1 m5 m15 m11 m9 m14 m3 m12 m13 m0 v0 v1 v2 v3 v4 v5 v6 v7 v8 v9 v10 v11 v12 v13 v14 v15 fun v0 v1 v2 v3 v4 v5 v6 v7 v8 v9 v10 v11 v12 v13 v14 v15 =>
  seqN (h0 ^^^ v0 ^^^ v8) fun o0 =>
  seqN (h1 ^^^ v1 ^^^ v9) fun o1 =>
  seqN (h2 ^^^ v2 ^^^ v10) fun o2 =>
  seqN (h3 ^^^ v3 ^^^ v11) fun o3 =>
  seqN (h4 ^^^ v4 ^^^ v12) fun o4 =>
  seqN (h5 ^^^ v5 ^^^ v13) fun o5 =>
  seqN (h6 ^^^ v6 ^^^ v14) fun o6 =>
  seqN (h7 ^^^ v7 ^^^ v15) fun o7 =>
  k o0 o1 o2 o3 o4 o5 o6 o7

/-- Little-endian 32-bit word `j` of a byte list padded with zeros. -/
def leWord (bs : List Nat) (j : Nat) : Nat :=
  bs.getD (4 * j) 0 + 256 * bs.getD (4 * j + 1) 0 +
    65536 * bs.getD (4 * j + 2) 0 + 16777216 * bs.getD (4 * j + 3) 0

/-- Little-endian serialization of one 32-bit word. -/
def wordLeBytes (w : Nat) : List Nat :=
  [w % 256, w / 256 % 256, w / 65536 % 256, w / 16777216 % 256]

/-- Unkeyed BLAKE2s-256 of a message of at most 64 bytes (one padded
block).  The initial state is the RFC 7693 IV with
`h0 = IV0 xor 0x01010020` (digest length 32, fanout 1, depth 1).  All
uses in the crate hash exactly 32 bytes. -/
def blake2s (bs : List Nat) : List Nat :=
  seqN bs.length fun t =>
  seqN (leWord bs 0) fun m0 =>
  seqN (leWord bs 1) fun m1 =>
  seqN (leWord bs 2) fun m2 =>
  seqN (leWord bs 3) fun m3 =>
  seqN (leWord bs 4) fun m4 =>
  seqN (leWord bs 5) fun m5 =>
  seqN (leWord bs 6) fun m6 =>
  seqN (leWord bs 7) fun m7 =>
  seqN (leWord bs 8) fun m8 =>
  seqN (leWord bs 9) fun m9 =>
  seqN (leWord bs 10) fun m10 =>
  seqN (leWord bs 11) fun m11 =>
  seqN (leWord bs 12) fun m12 =>
  seqN (leWord bs 13) fun m13 =>
  seqN (leWord bs 14) fun m14 =>
  seqN (leWord bs 15) fun m15 =>
  blakeCompressK t m0 m1 m2 m3 m4 m5 m6 m7 m8 m9 m10 m11 m12 m13 m14 m15
    (0x6A09E667 ^^^ 0x01010020) 0xBB67AE85 0x3C6EF372 0xA54FF53A
    0x510E527F 0x9B05688C 0x1F83D9AB 0x5BE0CD19
    fun o0 o1 o2 o3 o4 o5 o6 o7 =>
      wordLeBytes o0 ++ wordLeBytes o1 ++ wordLeBytes o2 ++ wordLeBytes o3 ++
        wordLeBytes o4 ++ wordLeBytes o5 ++ wordLeBytes o6 ++ wordLeBytes o7

/-! ## Byte buffers and comparison -/

/-- Lexicographic strict order on byte lists: the embedding of Rust's
derived `PartialOrd`/`Ord` comparison `target_hash < self.target` on
`[u8; 32]` (element-wise lexicographic; both sides always have length
32 in the crate). -/
def ltBytes : List Nat → List Nat → Bool
  | [], [] => false
  | [], _ :: _ => true
  | _ :: _, [] => false
  | a :: as, b :: bs => if a < b then true else if b < a then false else ltBytes as bs

/-- Big-endian serialization of `v` into `n` bytes, dropping bits
beyond `8 * n`: the embedding of `u128::to_be_bytes` (with `n = 16`). -/
def beBytes : Nat → Nat → List Nat
  | 0, _ => []
  | n + 1, v => beBytes n (v / 256) ++ [v % 256]

/-- The unsigned big-endian integer denoted by a byte list. -/
def beVal : List Nat → Nat
  | [] => 0
  | b :: bs => b * 256 ^ bs.length + beVal bs

/-! ## Hex codec (the `hex` crate) -/

/-- The error type `hex::FromHexError`. -/
inductive FromHexError
  | invalidHexCharacter (c : Char) (index : Nat)
  | oddLength
  | invalidStringLength
deriving DecidableEq

instance {ε α : Type} [DecidableEq ε] [DecidableEq α] :
    DecidableEq (Except ε α) := fun x y =>
  match x, y with
  | .error e, .error f =>
    if h : e = f then .isTrue (h ▸ rfl)
    else .isFalse (by intro c; injection c; exact h ‹_›)
  | .ok a, .ok b =>
    if h : a = b then .isTrue (h ▸ rfl)
    else .isFalse (by intro c; injection c; exact h ‹_›)
  | .error _, .ok _ => .isFalse (by intro c; injection c)
  | .ok _, .error _ => .isFalse (by intro c; injection c)

/-- The `hex` crate's `val`: value of one hex digit, accepting upper
case, lower case and decimal digits, in that order. -/
def hexVal (c : Char) : Option Nat :=
  if 'A' ≤ c ∧ c ≤ 'F' then some (c.toNat - 'A'.toNat + 10)
  else if 'a' ≤ c ∧ c ≤ 'f' then some (c.toNat - 'a'.toNat + 10)
  else if '0' ≤ c ∧ c ≤ '9' then some (c.toNat - '0'.toNat)
  else none

/-- The pair-decoding loop of `hex::decode_to_slice`: each byte is
`val(data[2i]) << 4 | val(data[2i+1])`, and the first invalid character
(scanning left to right, high digit before low digit) is reported with
its zero-based index in the input.  `i` is the index of the first
character of the remaining input. -/
def decodePairs : List Char → Nat → Except FromHexError (List Nat)
  | [], _ => .ok []
  | c1 :: c2 :: rest, i =>
    match hexVal c1 with
    | none => .error (.invalidHexCharacter c1 i)
    | some hi =>
      match hexVal c2 with
      | none => .error (.invalidHexCharacter c2 (i + 1))
      | some lo =>
        match decodePairs rest (i + 2) with
        | .error e => .error e
        | .ok bs => .ok ((hi * 16 + lo) :: bs)
  | [_], _ => .error .oddLength

/-- `hex::decode_to_slice` with a 32-byte output buffer: an odd-length
input is rejected first, then an input whose byte count is not 32,
then the characters are decoded pairwise. -/
def decodeHex32 (s : List Char) : Except FromHexError (List Nat) :=
  if s.length % 2 ≠ 0 then .error .oddLength
  else if s.length / 2 ≠ 32 then .error .invalidStringLength
  else decodePairs s 0

/-- One lowercase hex digit, as produced by `hex::encode`. -/
def hexDigit (n : Nat) : Char :=
  if n < 10 then Char.ofNat ('0'.toNat + n) else Char.ofNat ('a'.toNat + n - 10)

/-- `hex::encode`: lowercase hex, high digit of each byte first. -/
def hexEncode : List Nat → List Char
  | [] => []
  | b :: bs => hexDigit (b / 16) :: hexDigit (b % 16) :: hexEncode bs

/-- Number of leading literal '0' characters of a character list. -/
def leadingZeroChars : List Char → Nat
  | [] => 0
  | c :: cs => if c = '0' then leadingZeroChars cs + 1 else 0

/-! ## The target encoder (`HashPrefix`) -/

/-- The configuration of the target encoder: `zero_bits`, a `u8` in the
source, is the number of required leading zero bits. -/
structure HashPrefix where
  zero_bits : Nat
deriving DecidableEq

/-- `HashPrefix::default()`: 20 zero bits (five hex digits). -/
def HashPrefix.defaultCfg : HashPrefix := ⟨20⟩

/-- `HashPrefix::new(leading_zeros)`: `zero_bits = 8 / 2 *
leading_zeros` computed in `u8`; the `% 256` is the release-mode wrap
of the multiplication (in debug builds the overflow panics, see
`HashPrefix.zeroBitsChecked`). -/
def HashPrefix.new (leading_zeros : Nat) : HashPrefix :=
  ⟨8 / 2 * leading_zeros % 256⟩

/-- Checked (debug-mode) semantics of the `zero_bits` computation in
`HashPrefix::new`: `none` models the arithmetic-overflow panic of the
`u8` multiplication `4 * leading_zeros`. -/
def HashPrefix.zeroBitsChecked (leading_zeros : Nat) : Option Nat :=
  if 8 / 2 * leading_zeros < 256 then some (8 / 2 * leading_zeros) else none

def HashPrefix.get (hp : HashPrefix) : Nat := hp.zero_bits

/-- `HashPrefix::target_u128` under release semantics: `remaining_bits
= total_bits - zero_bits` is a wrapping `u8` subtraction, and the
`u128` shift `1 << remaining_bits` masks its shift count by 128. -/
def HashPrefix.targetU128 (hp : HashPrefix) : Nat :=
  let total_bits := 128
  let remaining_bits := (256 + total_bits - hp.get) % 256
  if hp.get < total_bits then (1 <<< (remaining_bits % 128)) - 1 else 1

/-- `HashPrefix::target_u128` under checked (debug) semantics: `none`
models the panics, namely the `u8` subtraction `128 - zero_bits`
underflowing when `zero_bits > 128`, and the `u128` shift
`1 << remaining_bits` overflowing when `remaining_bits ≥ 128` (which
happens exactly at `zero_bits = 0`). -/
def HashPrefix.targetU128Checked (hp : HashPrefix) : Option Nat :=
  let total_bits := 128
  if hp.get ≤ total_bits then
    let remaining_bits := total_bits - hp.get
    if hp.get < total_bits then
      if remaining_bits < 128 then some ((1 <<< remaining_bits) - 1) else none
    else some 1
  else none

/-- `HashPrefix::target`: a 32-byte array of 0xFF whose first 16 bytes
are overwritten with the big-endian bytes of `target_u128`. -/
def HashPrefix.target (hp : HashPrefix) : List Nat :=
  beBytes 16 hp.targetU128 ++ List.replicate 16 255

/-! ## The engine (`HashFinder`) -/

/-- `HashFinder`: its sole state is the 32-byte threshold. -/
structure HashFinder where
  target : List Nat
deriving DecidableEq

/-- `HashFinder::new(leading_zeros)` (release semantics). -/
def HashFinder.new (leading_zeros : Nat) : HashFinder :=
  ⟨( HashPrefix.new leading_zeros).target⟩

/-- `HashFinder::default()`. -/
def HashFinder.defaultF : HashFinder :=
  ⟨ HashPrefix.defaultCfg.target⟩

/-- Checked (debug-mode) construction: `some` exactly when neither the
`zero_bits` multiplication nor the cutoff computation panics; the
engine produced is then the same as under release semantics. -/
def HashFinder.newChecked (leading_zeros : Nat) : Option HashFinder :=
  match HashPrefix.zeroBitsChecked leading_zeros with
  | none => none
  | some z =>
    match HashPrefix.targetU128Checked ⟨z⟩ with
    | none => none
    | some _ => some (HashFinder.new leading_zeros)

/-- The search loop of `HashFinder::find`, generic in the digest
function `hash` (the crate instantiates it with BLAKE2s-256, see
`HashFinder.find`).  Each attempt draws a fresh entropy buffer from the
stream `ent`, computes `origin_hash = hash(entropy)` (the body of
`Entropy::new().hash()`) and `target_hash = hash(origin_hash)`
(`Entropy::from(origin_hash).hash()`), and returns `origin_hash` the
first time `target_hash < target`.  The unbounded `loop` is modelled
with explicit fuel: `none` means no attempt succeeded within `fuel`
iterations. -/
def findG (hash : List Nat → List Nat) (t : List Nat) :
    Nat → (Nat → List Nat) → Option (List Nat)
  | 0, _ => none
  | fuel + 1, ent =>
    let origin_hash := hash (ent 0)
    let target_hash := hash origin_hash
    if ltBytes target_hash t then some origin_hash
    else findG hash t fuel (fun i => ent (i + 1))

/-- `HashFinder::find`, with the crate's digest function. -/
def HashFinder.find (hf : HashFinder) (fuel : Nat) (ent : Nat → List Nat) :
    Option (List Nat) :=
  findG blake2s hf.target fuel ent

/-- `HashFinder::check`: decode the hex input into a 32-byte buffer
(propagating decode errors), hash the decoded bytes, and compare the
digest against the threshold. -/
def HashFinder.check (hf : HashFinder) (origin_hash : List Char) :
    Except FromHexError Bool :=
  match decodeHex32 origin_hash with
  | .error e => .error e
  | .ok origin_hash_bytes => .ok (ltBytes (blake2s origin_hash_bytes) hf.target)

/-- The cutoff integer as the specification words it (§4.1): modelled
from the spec, for comparison with the code's `target_u128`.
`zero_bits < 128` yields `(1 <<< (128 - zero_bits)) - 1`, otherwise the
cutoff saturates at 1. -/
def specCutoff (zero_bits : Nat) : Nat :=
  if zero_bits < 128 then (1 <<< (128 - zero_bits)) - 1 else 1

/-- The state-passing embedding of a `check` method call on `&self`:
the `HashFinder` value is the engine state before the call, the second
component is the engine state after it.  `HashFinder` holds only the
plain (non-interior-mutable) `target` array, so a shared-reference call
leaves it unchanged. -/
def HashFinder.checkCall (hf : HashFinder) (s : List Char) :
    Except FromHexError Bool × HashFinder :=
  (hf.check s, hf)

/-- The state-passing embedding of a `find` method call on `&self`. -/
def HashFinder.findCall (hf : HashFinder) (fuel : Nat) (ent : Nat → List Nat) :
    Option (List Nat) × HashFinder :=
  (hf.find fuel ent, hf)

/-- Position (character and zero-based index) of the first character of
the input that is not a hexadecimal digit, if any. -/
def firstInvalid : List Char → Nat → Option (Char × Nat)
  | [], _ => none
  | c :: cs, i =>
    match hexVal c with
    | none => some (c, i)
    | some _ => firstInvalid cs (i + 1)

/-- The 64-character all-zero hex string. -/
def zeros64 : List Char := List.replicate 64 '0'

/-- BLAKE2s-256 of the 32-byte all-zero buffer,
320b5ea99e653bc2b593db4130d10a4efd3a0b4cc2e1a6672b678d71dfbd33ad
(it begins with the nonzero hex digit 3). -/
def zeroDigest : List Nat :=
  [50, 11, 94, 169, 158, 101, 59, 194, 181, 147, 219, 65, 48, 209, 10, 78,
    253, 58, 11, 76, 194, 225, 166, 103, 43, 103, 141, 113, 223, 189, 51, 173]

/-- The repository's difficulty-3 test vector
3ca727…44d4 (from `checks_the_hash_for_the_required_number_of_leading_zeros`). -/
def sv3 : List Char :=
  ['3', 'c', 'a', '7', '2', '7', 'c', '7', 'f', 'e', 'f', 'e', 'd', '6', '7', '4',
    '2', '6', '8', '7', '9', '7', '8', '8', '2', 'f', 'f', '4', 'b', '2', '6', 'c',
    '8', 'e', '2', '8', '8', '7', '3', 'e', 'e', '6', 'f', 'b', 'f', 'a', 'e', '7',
    '1', 'd', '9', 'c', 'c', 'c', '3', '5', 'e', '2', '4', '4', '4', '4', 'd', '4']

/-- The repository's invalid-character test vector: sv3 with '+' at
index 2. -/
def svPlus : List Char :=
  ['3', 'c', '+', '7', '2', '7', 'c', '7', 'f', 'e', 'f', 'e', 'd', '6', '7', '4',
    '2', '6', '8', '7', '9', '7', '8', '8', '2', 'f', 'f', '4', 'b', '2', '6', 'c',
    '8', 'e', '2', '8', '8', '7', '3', 'e', 'e', '6', 'f', 'b', 'f', 'a', 'e', '7',
    '1', 'd', '9', 'c', 'c', 'c', '3', '5', 'e', '2', '4', '4', '4', '4', 'd', '4']

/-- The repository's odd-length test vector: sv3 without its last
character (63 characters). -/
def svOdd : List Char :=
  ['3', 'c', 'a', '7', '2', '7', 'c', '7', 'f', 'e', 'f', 'e', 'd', '6', '7', '4',
    '2', '6', '8', '7', '9', '7', '8', '8', '2', 'f', 'f', '4', 'b', '2', '6', 'c',
    '8', 'e', '2', '8', '8', '7', '3', 'e', 'e', '6', 'f', 'b', 'f', 'a', 'e', '7',
    '1', 'd', '9', 'c', 'c', 'c', '3', '5', 'e', '2', '4', '4', '4', '4', 'd']

/-- The repository's wrong-length test vector: 66 valid hex
characters. -/
def svLong : List Char :=
  ['3', 'c', 'a', '7', '2', '7', 'c', '7', 'f', 'e', 'f', 'e', 'd', '6', '7', '4',
    '2', '6', '8', '7', '9', '7', '8', '8', '2', 'f', 'f', '4', 'b', '2', '6', 'c',
    '8', 'e', '2', '8', '8', '7', '3', 'e', 'e', '6', 'f', 'b', 'f', 'a', 'e', '7',
    '1', 'd', '9', 'c', 'c', 'c', '3', '5', 'e', '2', '4', '4', '4', '4', 'd', '4',
    '4', '4']

/-- A concrete entropy buffer (the big-endian bytes of 17) for which a
single `find` attempt at difficulty 1 succeeds. -/
def entropy17 : List Nat :=
  [0, 0, 0, 0, 0, 0, 0, 0, 0, 0, 0, 0, 0, 0, 0, 0,
    0, 0, 0, 0, 0, 0, 0, 0, 0, 0, 0, 0, 0, 0, 0, 17]

/-- BLAKE2s-256 of `entropy17`:
a685b0b5d5555ee491d4a4c4d1acff7c6b71d0934b80286bb48bb766671467a7.
Its own digest 0e1de7…fe5b is below the difficulty-1 threshold, while
`origin17` itself (first hex digit a) is not. -/
def origin17 : List Nat :=
  [166, 133, 176, 181, 213, 85, 94, 228, 145, 212, 164, 196, 209, 172, 255, 124,
    107, 113, 208, 147, 75, 128, 40, 107, 180, 139, 183, 102, 103, 20, 103, 167]


/-! ## Validation of the hash embedding

The repository's own regression vector (test
`blake2s_hash_can_be_validated`): the digest of the 32-byte value
c37289…33fa is 747898…18ba. -/

example :
    blake2s [0xc3, 0x72, 0x89, 0xb4, 0x89, 0x49, 0xa7, 0xd1, 0x72, 0x34, 0x6c,
      0xb3, 0xe5, 0x60, 0x0d, 0xa9, 0x05, 0xf5, 0x3e, 0x7c, 0x02, 0x2d, 0x36,
      0x48, 0x36, 0xdc, 0xf5, 0x7d, 0xb4, 0xde, 0x33, 0xfa] =
    [0x74, 0x78, 0x98, 0x72, 0x93, 0xe1, 0x86, 0x4f, 0xd8, 0x33, 0xae, 0x36,
      0x07, 0xbc, 0x99, 0xb9, 0xb2, 0x2e, 0x7c, 0xa3, 0x9b, 0xce, 0xd2, 0x1c,
      0x3b, 0x04, 0x28, 0xbd, 0x9c, 0x72, 0x18, 0xba] := by decide

example : blake2s (List.replicate 32 0) = zeroDigest := by decide

example : blake2s entropy17 = origin17 := by decide

/-! ## Shape lemmas for the continuation-passing hash -/

theorem seqN_eq {α : Type} (n : Nat) (k : Nat → α) : seqN n k = k n := by
  unfold seqN
  cases n <;> rfl

theorem gMixK_nat {α β : Type} (g : α → β) (va vb vc vd x y : Nat)
    (k : Nat → Nat → Nat → Nat → α) :
    g (gMixK va vb vc vd x y k) =
      gMixK va vb vc vd x y (fun a b c d => g (k a b c d)) := by
  simp only [gMixK, seqN_eq]

theorem roundK_nat {α β : Type} (g : α → β)
    (x0 y0 x1 y1 x2 y2 x3 y3 x4 y4 x5 y5 x6 y6 x7 y7 : Nat)
    (v0 v1 v2 v3 v4 v5 v6 v7 v8 v9 v10 v11 v12 v13 v14 v15 : Nat)
    (k : Nat → Nat → Nat → Nat → Nat → Nat → Nat → Nat →
      Nat → Nat → Nat → Nat → Nat → Nat → Nat → Nat → α) :
    g (roundK x0 y0 x1 y1 x2 y2 x3 y3 x4 y4 x5 y5 x6 y6 x7 y7
        v0 v1 v2 v3 v4 v5 v6 v7 v8 v9 v10 v11 v12 v13 v14 v15 k) =
      roundK x0 y0 x1 y1 x2 y2 x3 y3 x4 y4 x5 y5 x6 y6 x7 y7
        v0 v1 v2 v3 v4 v5 v6 v7 v8 v9 v10 v11 v12 v13 v14 v15
        (fun w0 w1 w2 w3 w4 w5 w6 w7 w8 w9 w10 w11 w12 w13 w14 w15 =>
          g (k w0 w1 w2 w3 w4 w5 w6 w7 w8 w9 w10 w11 w12 w13 w14 w15)) := by
  simp only [roundK]
  simp only [gMixK_nat g]

theorem blakeCompressK_nat {α β : Type} (g : α → β) (t : Nat)
    (m0 m1 m2 m3 m4 m5 m6 m7 m8 m9 m10 m11 m12 m13 m14 m15 : Nat)
    (h0 h1 h2 h3 h4 h5 h6 h7 : Nat)
    (k : Nat → Nat → Nat → Nat → Nat → Nat → Nat → Nat → α) :
    g (blakeCompressK t m0 m1 m2 m3 m4 m5 m6 m7 m8 m9 m10 m11 m12 m13 m14 m15
        h0 h1 h2 h3 h4 h5 h6 h7 k) =
      blakeCompressK t m0 m1 m2 m3 m4 m5 m6 m7 m8 m9 m10 m11 m12 m13 m14 m15
        h0 h1 h2 h3 h4 h5 h6 h7
        (fun o0 o1 o2 o3 o4 o5 o6 o7 => g (k o0 o1 o2 o3 o4 o5 o6 o7)) := by
  simp only [blakeCompressK, seqN_eq]
  simp only [roundK_nat g]

/-- `blake2s` is the compression function applied to the message words,
with the serialization continuation. -/
theorem blake2s_eq (bs : List Nat) :
    blake2s bs =
      blakeCompressK bs.length (leWord bs 0) (leWord bs 1) (leWord bs 2)
        (leWord bs 3) (leWord bs 4) (leWord bs 5) (leWord bs 6) (leWord bs 7)
        (leWord bs 8) (leWord bs 9) (leWord bs 10) (leWord bs 11) (leWord bs 12)
        (leWord bs 13) (leWord bs 14) (leWord bs 15)
        (0x6A09E667 ^^^ 0x01010020) 0xBB67AE85 0x3C6EF372 0xA54FF53A
        0x510E527F 0x9B05688C 0x1F83D9AB 0x5BE0CD19
        (fun o0 o1 o2 o3 o4 o5 o6 o7 =>
          wordLeBytes o0 ++ wordLeBytes o1 ++ wordLeBytes o2 ++ wordLeBytes o3 ++
            wordLeBytes o4 ++ wordLeBytes o5 ++ wordLeBytes o6 ++ wordLeBytes o7) := by
  simp only [blake2s, seqN_eq]

theorem gMixK_const {α : Type} (c : α) (va vb vc vd x y : Nat) :
    gMixK va vb vc vd x y (fun _ _ _ _ => c) = c := by
  simp only [gMixK, seqN_eq]

theorem roundK_const {α : Type} (c : α)
    (x0 y0 x1 y1 x2 y2 x3 y3 x4 y4 x5 y5 x6 y6 x7 y7 : Nat)
    (v0 v1 v2 v3 v4 v5 v6 v7 v8 v9 v10 v11 v12 v13 v14 v15 : Nat) :
    roundK x0 y0 x1 y1 x2 y2 x3 y3 x4 y4 x5 y5 x6 y6 x7 y7
      v0 v1 v2 v3 v4 v5 v6 v7 v8 v9 v10 v11 v12 v13 v14 v15
      (fun _ _ _ _ _ _ _ _ _ _ _ _ _ _ _ _ => c) = c := by
  simp only [roundK, gMixK_const]

theorem blakeCompressK_const {α : Type} (c : α) (t : Nat)
    (m0 m1 m2 m3 m4 m5 m6 m7 m8 m9 m10 m11 m12 m13 m14 m15 : Nat)
    (h0 h1 h2 h3 h4 h5 h6 h7 : Nat) :
    blakeCompressK t m0 m1 m2 m3 m4 m5 m6 m7 m8 m9 m10 m11 m12 m13 m14 m15
      h0 h1 h2 h3 h4 h5 h6 h7 (fun _ _ _ _ _ _ _ _ => c) = c := by
  simp only [blakeCompressK, seqN_eq, roundK_const]

/-- Every BLAKE2s digest has 32 bytes. -/
theorem blake2s_length (bs : List Nat) : (blake2s bs).length = 32 := by
  rw [blake2s_eq, blakeCompressK_nat List.length]
  simp only [List.length_append, wordLeBytes, List.length_cons, List.length_nil]
  exact blakeCompressK_const 32 _ _ _ _ _ _ _ _ _ _ _ _ _ _ _ _ _ _ _ _ _ _ _ _ _

/-- Every byte of a BLAKE2s digest is below 256. -/
theorem blake2s_bytes_lt (bs : List Nat) : ∀ x ∈ blake2s bs, x < 256 := by
  have hall : (blake2s bs).all (fun x => decide (x < 256)) = true := by
    rw [blake2s_eq, blakeCompressK_nat (List.all · (fun x => decide (x < 256)))]
    have hw : ∀ o0 o1 o2 o3 o4 o5 o6 o7 : Nat,
        (wordLeBytes o0 ++ wordLeBytes o1 ++ wordLeBytes o2 ++ wordLeBytes o3 ++
          wordLeBytes o4 ++ wordLeBytes o5 ++ wordLeBytes o6 ++
          wordLeBytes o7).all (fun x => decide (x < 256)) = true := by
      intro o0 o1 o2 o3 o4 o5 o6 o7
      simp only [List.all_append, List.all_cons, List.all_nil, wordLeBytes,
        Bool.and_eq_true, decide_eq_true_eq, and_true]
      refine ⟨⟨⟨⟨⟨⟨⟨?_, ?_⟩, ?_⟩, ?_⟩, ?_⟩, ?_⟩, ?_⟩, ?_⟩ <;>
        refine ⟨?_, ?_, ?_, ?_⟩ <;> omega
    simp only [hw]
    exact blakeCompressK_const true _ _ _ _ _ _ _ _ _ _ _ _ _ _ _ _ _ _ _ _ _ _ _ _ _
  intro x hx
  have := List.all_eq_true.mp hall x hx
  simpa using this

/-! ## Big-endian value of byte lists versus lexicographic comparison -/

theorem beVal_lt_pow (bs : List Nat) (h : ∀ x ∈ bs, x < 256) :
    beVal bs < 256 ^ bs.length := by
  induction bs with
  | nil => simp [beVal]
  | cons b rest ih =>
    have hb : b < 256 := h b (List.mem_cons_self b rest)
    have hr : beVal rest < 256 ^ rest.length :=
      ih (fun x hx => h x (List.mem_cons_of_mem b hx))
    simp only [beVal, List.length_cons]
    calc b * 256 ^ rest.length + beVal rest
        < (b + 1) * 256 ^ rest.length := by rw [Nat.succ_mul]; omega
      _ ≤ 256 * 256 ^ rest.length := Nat.mul_le_mul_right _ hb
      _ = 256 ^ (rest.length + 1) := by rw [Nat.pow_succ]; ring

/-- The crate's lexicographic array comparison agrees with comparison
of the values as big-endian unsigned integers, for equal-length lists
of bytes. -/
theorem ltBytes_iff_beVal : ∀ (xs ys : List Nat), xs.length = ys.length →
    (∀ x ∈ xs, x < 256) → (∀ y ∈ ys, y < 256) →
    (ltBytes xs ys = true ↔ beVal xs < beVal ys)
  | [], [], _, _, _ => by simp [ltBytes, beVal]
  | [], _ :: _, h, _, _ => by simp at h
  | _ :: _, [], h, _, _ => by simp at h
  | a :: as, b :: bs, h, ha, hb => by
    have hlen : as.length = bs.length := by simpa using h
    have hrec : ltBytes as bs = true ↔ beVal as < beVal bs :=
      ltBytes_iff_beVal as bs hlen (fun x hx => ha x (List.mem_cons_of_mem a hx))
        (fun y hy => hb y (List.mem_cons_of_mem b hy))
    have has : beVal as < 256 ^ as.length :=
      beVal_lt_pow as (fun x hx => ha x (List.mem_cons_of_mem a hx))
    have hbs : beVal bs < 256 ^ bs.length :=
      beVal_lt_pow bs (fun y hy => hb y (List.mem_cons_of_mem b hy))
    rw [hlen] at has
    simp only [ltBytes, beVal, hlen]
    rcases Nat.lt_trichotomy a b with hab | hab | hab
    · rw [if_pos hab]
      have hlt2 : a * 256 ^ bs.length + beVal as < b * 256 ^ bs.length + beVal bs :=
        calc a * 256 ^ bs.length + beVal as
            < (a + 1) * 256 ^ bs.length := by rw [Nat.succ_mul]; omega
          _ ≤ b * 256 ^ bs.length := Nat.mul_le_mul_right _ hab
          _ ≤ b * 256 ^ bs.length + beVal bs := Nat.le_add_right _ _
      exact ⟨fun _ => hlt2, fun _ => rfl⟩
    · subst hab
      rw [if_neg (Nat.lt_irrefl a), if_neg (Nat.lt_irrefl a)]
      constructor
      · intro hl
        exact Nat.add_lt_add_left (hrec.mp hl) _
      · intro hl
        exact hrec.mpr (Nat.lt_of_add_lt_add_left hl)
    · rw [if_neg (Nat.lt_asymm hab), if_pos hab]
      have hba : b * 256 ^ bs.length + beVal bs < a * 256 ^ bs.length + beVal as :=
        calc b * 256 ^ bs.length + beVal bs
            < (b + 1) * 256 ^ bs.length := by rw [Nat.succ_mul]; omega
          _ ≤ a * 256 ^ bs.length := Nat.mul_le_mul_right _ hab
          _ ≤ a * 256 ^ bs.length + beVal as := Nat.le_add_right _ _
      exact ⟨fun hf => Bool.noConfusion hf,
        fun hl => absurd hl (Nat.not_lt.mpr (Nat.le_of_lt hba))⟩

theorem beVal_cons (b : Nat) (bs : List Nat) :
    beVal (b :: bs) = b * 256 ^ bs.length + beVal bs := rfl

theorem leadingZeroChars_zero_cons (l : List Char) :
    leadingZeroChars ('0' :: l) = leadingZeroChars l + 1 := rfl

/-- A byte list whose big-endian value is below `2 ^ (8 n - 4 k)` hex
encodes to a string with at least `k` leading '0' characters. -/
theorem hexZeros_of_beVal_lt : ∀ (bs : List Nat) (k : Nat),
    (∀ x ∈ bs, x < 256) → k ≤ 2 * bs.length →
    beVal bs < 2 ^ (8 * bs.length - 4 * k) →
    k ≤ leadingZeroChars (hexEncode bs)
  | _, 0, _, _, _ => Nat.zero_le _
  | [], k + 1, _, hk, _ => by
    simp only [List.length_nil] at hk
    omega
  | b :: rest, 1, hv, hk, hlt => by
    have hpow : (256 : Nat) ^ rest.length = 2 ^ (8 * rest.length) := by
      rw [Nat.pow_mul]
    have he : 8 * (b :: rest).length - 4 * 1 = 4 + 8 * rest.length := by
      simp only [List.length_cons]
      omega
    rw [he, Nat.pow_add, beVal_cons, hpow] at hlt
    norm_num at hlt
    have hb16 : b < 16 := by
      by_contra hge
      have h1 : 16 * 2 ^ (8 * rest.length) ≤ b * 2 ^ (8 * rest.length) :=
        Nat.mul_le_mul_right _ (by omega)
      omega
    have hd : hexDigit (b / 16) = '0' := by
      have hz : b / 16 = 0 := by omega
      rw [hz]
      rfl
    simp only [hexEncode, hd, leadingZeroChars_zero_cons]
    omega
  | b :: rest, k + 2, hv, hk, hlt => by
    have hpow : (256 : Nat) ^ rest.length = 2 ^ (8 * rest.length) := by
      rw [Nat.pow_mul]
    have hkr : k ≤ 2 * rest.length := by
      simp only [List.length_cons] at hk
      omega
    have he : 8 * (b :: rest).length - 4 * (k + 2) = 8 * rest.length - 4 * k := by
      simp only [List.length_cons]
      omega
    rw [he, beVal_cons, hpow] at hlt
    have hple : 2 ^ (8 * rest.length - 4 * k) ≤ 2 ^ (8 * rest.length) :=
      Nat.pow_le_pow_right (by omega) (by omega)
    have hb0 : b = 0 := by
      by_contra hne
      have h1 : 1 * 2 ^ (8 * rest.length) ≤ b * 2 ^ (8 * rest.length) :=
        Nat.mul_le_mul_right _ (by omega)
      rw [Nat.one_mul] at h1
      omega
    subst hb0
    rw [Nat.zero_mul, Nat.zero_add] at hlt
    have ih := hexZeros_of_beVal_lt rest k
      (fun x hx => hv x (List.mem_cons_of_mem 0 hx)) hkr hlt
    have hd0 : hexDigit 0 = '0' := rfl
    simp only [hexEncode, Nat.zero_div, Nat.zero_mod, hd0, leadingZeroChars_zero_cons]
    omega

/-! ## Hex codec lemmas -/

theorem hexVal_hexDigit : ∀ n < 16, hexVal (hexDigit n) = some n := by decide

theorem hexEncode_length : ∀ (bs : List Nat), (hexEncode bs).length = 2 * bs.length
  | [] => rfl
  | b :: rest => by
    simp only [hexEncode, List.length_cons, hexEncode_length rest]
    omega

theorem decodePairs_hexEncode : ∀ (bs : List Nat) (i : Nat), (∀ x ∈ bs, x < 256) →
    decodePairs (hexEncode bs) i = .ok bs
  | [], _, _ => rfl
  | b :: rest, i, h => by
    have hb : b < 256 := h b (List.mem_cons_self b rest)
    have h1 : hexVal (hexDigit (b / 16)) = some (b / 16) :=
      hexVal_hexDigit _ (by omega)
    have h2 : hexVal (hexDigit (b % 16)) = some (b % 16) :=
      hexVal_hexDigit _ (by omega)
    have ih := decodePairs_hexEncode rest (i + 2)
      (fun x hx => h x (List.mem_cons_of_mem b hx))
    have hbb : b / 16 * 16 + b % 16 = b := by omega
    simp only [hexEncode, decodePairs, h1, h2, ih, hbb]

/-- Decoding inverts encoding on 32-byte buffers. -/
theorem decodeHex32_hexEncode (bs : List Nat) (hl : bs.length = 32)
    (h : ∀ x ∈ bs, x < 256) : decodeHex32 (hexEncode bs) = .ok bs := by
  have hlen : (hexEncode bs).length = 64 := by
    rw [hexEncode_length, hl]
  simp only [decodeHex32, hlen]
  norm_num
  exact decodePairs_hexEncode bs 0 h

/-! ## The search loop -/

/-- Characterization of a successful search: the returned value is a
digest of some entropy buffer, and its own digest is strictly below
the threshold. -/
theorem findG_eq_some (hash : List Nat → List Nat) (t : List Nat) :
    ∀ (fuel : Nat) (ent : Nat → List Nat) (v : List Nat),
      findG hash t fuel ent = some v →
      ltBytes (hash v) t = true ∧ ∃ e, v = hash e := by
  intro fuel
  induction fuel with
  | zero =>
    intro ent v h
    simp [findG] at h
  | succ n ih =>
    intro ent v h
    simp only [findG] at h
    split at h
    · cases h
      exact ⟨by assumption, ent 0, rfl⟩
    · exact ih (fun i => ent (i + 1)) v h

/-! ## Checked construction -/

theorem newChecked_bounded :
    ∀ d < 64, HashFinder.newChecked d = none ∨
      (1 ≤ d ∧ d ≤ 32 ∧ HashFinder.newChecked d = some (HashFinder.new d)) := by
  decide

/-- Debug-mode construction succeeds only for difficulties 1 … 32, and
then builds the same engine as release mode. -/
theorem newChecked_some (d : Nat) (hf : HashFinder)
    (h : HashFinder.newChecked d = some hf) :
    1 ≤ d ∧ d ≤ 32 ∧ hf = HashFinder.new d := by
  rcases Nat.lt_or_ge d 64 with hd | hd
  · rcases newChecked_bounded d hd with hn | ⟨h1, h2, hs⟩
    · rw [hn] at h
      cases h
    · rw [hs] at h
      cases h
      exact ⟨h1, h2, rfl⟩
  · exfalso
    have hz : HashPrefix.zeroBitsChecked d = none := by
      unfold HashPrefix.zeroBitsChecked
      rw [if_neg (by omega)]
    unfold HashFinder.newChecked at h
    rw [hz] at h
    cases h

/-! ## Bounded facts about the constructed thresholds -/

theorem target_beVal_bound :
    ∀ d < 33, 1 ≤ d →
      beVal ((HashFinder.new d).target) ≤ 2 ^ (256 - 4 * min d 31) := by
  decide

theorem target_bytes_lt : ∀ d < 33, ∀ x ∈ (HashFinder.new d).target, x < 256 := by
  decide

theorem target_length : ∀ d < 33, ((HashFinder.new d).target).length = 32 := by
  decide

/-- The pair decoder errors exactly on the first non-hex character,
with that character and its zero-based index, and succeeds when every
character is a hex digit. -/
theorem decodePairs_firstInvalid : ∀ (s : List Char) (i : Nat), s.length % 2 = 0 →
    (∀ c j, firstInvalid s i = some (c, j) →
      decodePairs s i = .error (.invalidHexCharacter c j)) ∧
    (firstInvalid s i = none → ∃ bs, decodePairs s i = .ok bs)
  | [], _, _ => by
    constructor
    · intro c j h
      simp [firstInvalid] at h
    · intro _
      exact ⟨[], rfl⟩
  | [_], _, h => by
    simp at h
  | c1 :: c2 :: rest, i, h => by
    have hr : rest.length % 2 = 0 := by
      simp only [List.length_cons] at h
      omega
    have ih := decodePairs_firstInvalid rest (i + 2) hr
    constructor
    · intro c j hj
      cases h1 : hexVal c1 with
      | none =>
        simp only [firstInvalid, h1] at hj
        cases hj
        simp only [decodePairs, h1]
      | some hi =>
        cases h2 : hexVal c2 with
        | none =>
          simp only [firstInvalid, h1, h2] at hj
          cases hj
          simp only [decodePairs, h1, h2]
        | some lo =>
          simp only [firstInvalid, h1, h2] at hj
          have hj2 : firstInvalid rest (i + 2) = some (c, j) := by
            have hi2 : i + 1 + 1 = i + 2 := by omega
            rwa [hi2] at hj
          have herr := ih.1 c j hj2
          simp only [decodePairs, h1, h2, herr]
    · intro hn
      cases h1 : hexVal c1 with
      | none =>
        simp only [firstInvalid, h1] at hn
        cases hn
      | some hi =>
        cases h2 : hexVal c2 with
        | none =>
          simp only [firstInvalid, h1, h2] at hn
          cases hn
        | some lo =>
          simp only [firstInvalid, h1, h2] at hn
          have hn2 : firstInvalid rest (i + 2) = none := by
            have hi2 : i + 1 + 1 = i + 2 := by omega
            rwa [hi2] at hn
          obtain ⟨bs, hbs⟩ := ih.2 hn2
          exact ⟨(hi * 16 + lo) :: bs, by simp only [decodePairs, h1, h2, hbs]⟩

/-! ## Claims -/

/-- C1 (corrected): `check` does not compare the decoded 32-byte value
itself against the threshold; it first hashes the decoded value and
compares the digest.  For every threshold and every hex input that
decodes to 32 bytes, `check` returns `Ok(b)` where `b` is true iff the
BLAKE2s digest of the decoded value, as an unsigned 256-bit big-endian
integer, is strictly below the threshold. -/
theorem c1_check_compares_digest_of_decoded (t : List Nat) (s : List Char)
    (bs : List Nat) (h : decodeHex32 s = .ok bs) :
    HashFinder.check ⟨t⟩ s = .ok (ltBytes (blake2s bs) t) := by
  unfold HashFinder.check
  rw [h]

/-- C1 witness: at difficulty 5 and the all-zero input the theorem's
hypothesis holds and the conclusion evaluates. -/
theorem c1_witness :
    HashFinder.check ⟨(HashFinder.new 5).target⟩ zeros64 =
      .ok (ltBytes (blake2s (List.replicate 32 0)) (HashFinder.new 5).target) :=
  c1_check_compares_digest_of_decoded (HashFinder.new 5).target zeros64
    (List.replicate 32 0) (by decide)

/-- C1 counterexample: the all-zero string decodes to the 32-byte zero
value, which is strictly below the difficulty-5 threshold, yet `check`
returns `Ok(false)` (because it compares the digest of the decoded
value, not the value). -/
theorem c1_counterexample :
    ltBytes (List.replicate 32 0) (HashFinder.new 5).target = true ∧
    HashFinder.check (HashFinder.new 5) zeros64 = .ok false := by decide

/-- C2 (corrected): the value returned by `find` is not itself below
the threshold; it is the value whose DIGEST is below the threshold.
Every value returned by `find` has a BLAKE2s digest strictly below the
engine's threshold. -/
theorem c2_find_digest_clears_threshold (hf : HashFinder) (fuel : Nat)
    (ent : Nat → List Nat) (v : List Nat)
    (h : HashFinder.find hf fuel ent = some v) :
    ltBytes (blake2s v) hf.target = true :=
  (findG_eq_some blake2s hf.target fuel ent v h).1

/-- C2 witness: a concrete single-attempt success at difficulty 1. -/
theorem c2_witness :
    HashFinder.find (HashFinder.new 1) 1 (fun _ => entropy17) = some origin17 ∧
    ltBytes (blake2s origin17) (HashFinder.new 1).target = true :=
  ⟨by decide, c2_find_digest_clears_threshold (HashFinder.new 1) 1
    (fun _ => entropy17) origin17 (by decide)⟩

/-- C2 counterexample: with entropy `entropy17`, `find` at difficulty 1
returns `origin17`, and `origin17` itself (first hex digit a) is NOT
strictly less than the threshold — only its digest is. -/
theorem c2_counterexample :
    HashFinder.find (HashFinder.new 1) 1 (fun _ => entropy17) = some origin17 ∧
    ltBytes origin17 (HashFinder.new 1).target = false := by decide

/-- C3 (code_bug): engine construction is NOT total on `u8`
difficulties.  Under checked arithmetic, `new(64)` panics because the
`u8` product `4 * 64` overflows, and `new(0)` panics because the
cutoff computation shifts a `u128` by 128 bits (a shift count equal to
the integer width, despite the `zero_bits < 128` guard). -/
theorem c3_construction_panics_at_boundaries :
    HashPrefix.zeroBitsChecked 64 = none ∧
    HashPrefix.targetU128Checked ⟨0⟩ = none ∧
    HashFinder.newChecked 0 = none ∧
    HashFinder.newChecked 64 = none := by decide

/-- C4 (code_bug): the threshold encoding deviates from the documented
cutoff at the boundaries.  At difficulty 0 the specified cutoff is
`2 ^ 128 - 1` and must never be 0, but the code's wrapped shift yields
cutoff 0 (upper half all zero) — and panics under checked arithmetic;
at difficulty 64 the `u8` multiplication wraps so the encoder behaves
as difficulty 0.  For difficulties 1 … 32 the code does match the
specified formula. -/
theorem c4_target_encoder_breaks_at_boundaries :
    specCutoff 0 = 2 ^ 128 - 1 ∧
    HashPrefix.targetU128 ⟨0⟩ = 0 ∧
    HashPrefix.targetU128Checked ⟨0⟩ = none ∧
    ( HashPrefix.new 0).target = List.replicate 16 0 ++ List.replicate 16 255 ∧
    HashPrefix.new 64 = HashPrefix.new 0 ∧
    (∀ d < 33, 1 ≤ d → HashPrefix.targetU128 ⟨4 * d⟩ = specCutoff (4 * d)) := by
  decide

/-- C5 (confirmed): the default engine is the difficulty-5 engine (20
zero bits, five hex digits), and its threshold is the documented test
vector 00 00 0f followed by twenty-nine ff bytes. -/
theorem c5_default_is_difficulty_five :
    HashPrefix.defaultCfg = HashPrefix.new 5 ∧
    HashFinder.defaultF = HashFinder.new 5 ∧
    HashFinder.defaultF.target = [0, 0, 15] ++ List.replicate 29 255 := by decide

/-- C6 (corrected): for a difficulty `d` at which construction does not
panic (1 ≤ d ≤ 32), re-hashing a found value and hex-encoding the
digest yields at least `min d 31` leading '0' characters — `d` zeros
for d ≤ 31, but at d = 32 the saturated cutoff only guarantees 31.
The digest function is the spec's opaque fixed-32-byte-output
primitive, quantified here. -/
theorem c6_find_digest_leading_zeros (d : Nat) (hf : HashFinder)
    (hash : List Nat → List Nat)
    (hdig : ∀ x : List Nat, (hash x).length = 32 ∧ ∀ b ∈ hash x, b < 256)
    (hc : HashFinder.newChecked d = some hf)
    (fuel : Nat) (ent : Nat → List Nat) (v : List Nat)
    (hv : findG hash hf.target fuel ent = some v) :
    min d 31 ≤ leadingZeroChars (hexEncode (hash v)) := by
  obtain ⟨hd1, hd2, rfl⟩ := newChecked_some d hf hc
  obtain ⟨hlt, -⟩ := findG_eq_some hash _ fuel ent v hv
  have hd33 : d < 33 := by omega
  have hbv : beVal (hash v) < beVal ((HashFinder.new d).target) := by
    rw [← ltBytes_iff_beVal (hash v) _
      (by rw [(hdig v).1, target_length d hd33]) (hdig v).2 (target_bytes_lt d hd33)]
    exact hlt
  have hb2 := target_beVal_bound d hd33 hd1
  apply hexZeros_of_beVal_lt
  · exact (hdig v).2
  · rw [(hdig v).1]
    omega
  · rw [(hdig v).1]
    have he : 8 * 32 - 4 * min d 31 = 256 - 4 * min d 31 := by omega
    rw [he]
    exact Nat.lt_of_lt_of_le hbv hb2

/-- C6 witness: at difficulty 1 with the constant all-zero digest
function, a found value's digest hex-encodes with at least
`min 1 31 = 1` leading zero. -/
theorem c6_witness :
    min 1 31 ≤ leadingZeroChars (hexEncode ((fun _ : List Nat =>
      List.replicate 32 0) (List.replicate 32 0))) := by
  have hdig : ∀ x : List Nat,
      ((fun _ : List Nat => List.replicate 32 0) x).length = 32 ∧
      ∀ b ∈ (fun _ : List Nat => List.replicate 32 0) x, b < 256 := by
    intro x
    refine ⟨by simp, ?_⟩
    intro b hb
    simp only [List.mem_replicate] at hb
    omega
  exact c6_find_digest_leading_zeros 1 (HashFinder.new 1)
    (fun _ => List.replicate 32 0) hdig (by decide) 1
    (fun _ => List.replicate 32 0) (List.replicate 32 0) (by decide)

/-- C6 counterexample: at difficulty 32 (constructible without panic)
the claim fails: the threshold admits the 32-byte digest value
2 ^ 128, whose hex encoding has exactly 31 leading zeros, not 32.
With a digest function pinned to that value, `find` succeeds and
returns it. -/
theorem c6_counterexample :
    HashFinder.newChecked 32 = some (HashFinder.new 32) ∧
    findG (fun _ => List.replicate 15 0 ++ 1 :: List.replicate 16 0)
      ((HashFinder.new 32).target) 1 (fun _ => List.replicate 32 0) =
      some (List.replicate 15 0 ++ 1 :: List.replicate 16 0) ∧
    leadingZeroChars (hexEncode
      (List.replicate 15 0 ++ 1 :: List.replicate 16 0)) = 31 ∧
    (List.replicate 15 0 ++ 1 :: List.replicate 16 0).length = 32 := by decide

/-- C7 (confirmed): `check` fails exactly on undecodable input, with
the `hex` crate's kind-preserving precedence: odd length first, then
wrong (non-64) length, then the first non-hex character with its exact
character and zero-based index; on fully valid 64-character input it
returns `Ok`. -/
theorem c7_check_error_taxonomy (hf : HashFinder) (s : List Char) :
    (s.length % 2 ≠ 0 → HashFinder.check hf s = .error .oddLength) ∧
    (s.length % 2 = 0 → s.length ≠ 64 →
      HashFinder.check hf s = .error .invalidStringLength) ∧
    (∀ c i, s.length = 64 → firstInvalid s 0 = some (c, i) →
      HashFinder.check hf s = .error (.invalidHexCharacter c i)) ∧
    (s.length = 64 → firstInvalid s 0 = none →
      ∃ b, HashFinder.check hf s = .ok b) := by
  refine ⟨?_, ?_, ?_, ?_⟩
  · intro hodd
    unfold HashFinder.check decodeHex32
    rw [if_pos hodd]
  · intro heven hne
    unfold HashFinder.check decodeHex32
    rw [if_neg (by omega), if_pos (by omega)]
  · intro c i h64 hfi
    have heq := (decodePairs_firstInvalid s 0 (by omega)).1 c i hfi
    unfold HashFinder.check decodeHex32
    rw [if_neg (by omega), if_neg (by omega), heq]
  · intro h64 hfi
    obtain ⟨bs, hbs⟩ := (decodePairs_firstInvalid s 0 (by omega)).2 hfi
    refine ⟨ltBytes (blake2s bs) hf.target, ?_⟩
    unfold HashFinder.check decodeHex32
    rw [if_neg (by omega), if_neg (by omega), hbs]

/-- C7 witness: the repository's three decode-error vectors: '+' at
index 2, a 63-character input, and a 66-character input. -/
theorem c7_witness :
    HashFinder.check (HashFinder.new 4) svPlus =
      .error (.invalidHexCharacter '+' 2) ∧
    HashFinder.check (HashFinder.new 4) svOdd = .error .oddLength ∧
    HashFinder.check (HashFinder.new 4) svLong = .error .invalidStringLength :=
  ⟨(c7_check_error_taxonomy (HashFinder.new 4) svPlus).2.2.1 '+' 2 (by decide)
    (by decide),
   (c7_check_error_taxonomy (HashFinder.new 4) svOdd).1 (by decide),
   (c7_check_error_taxonomy (HashFinder.new 4) svLong).2.1 (by decide) (by decide)⟩

/-- C8 (corrected, amended part): `check` hashes the decoded bytes, so
the all-zero string is REJECTED (`Ok(false)`) at every difficulty
1 … 32, because the digest of the zero buffer begins with the nonzero
hex digit 3. -/
theorem c8_zeros_rejected (d : Nat) (h1 : 1 ≤ d) (h2 : d ≤ 32) :
    HashFinder.check (HashFinder.new d) zeros64 = .ok false := by
  have hdec : decodeHex32 zeros64 = .ok (List.replicate 32 0) := by decide
  have hz : blake2s (List.replicate 32 0) = zeroDigest := by decide
  have hlt : ∀ e < 33, 1 ≤ e →
      ltBytes zeroDigest ((HashFinder.new e).target) = false := by decide
  unfold HashFinder.check
  simp only [hdec, hz, hlt d (by omega) h1]

/-- C8 witness: the default difficulty rejects the all-zero string. -/
theorem c8_witness : HashFinder.check (HashFinder.new 5) zeros64 = .ok false :=
  c8_zeros_rejected 5 (by decide) (by decide)

/-- C8 counterexample: the all-zero string yields `Ok(false)` at
difficulty 1 (the claim says `Ok(true)` for every difficulty), and the
repository's own difficulty-3 vector, whose first hex digit is the
nonzero 3, yields `Ok(true)` (the claim says `Ok(false)` for d ≥ 1). -/
theorem c8_counterexample :
    zeros64.headD 'x' = '0' ∧
    HashFinder.check (HashFinder.new 1) zeros64 = .ok false ∧
    sv3.headD 'x' = '3' ∧
    HashFinder.check (HashFinder.new 3) sv3 = .ok true := by decide

/-- C9 (confirmed): `check` is deterministic and free of state
mutation: engines with identical thresholds produce identical results
on identical inputs, and in the state-passing embedding of the
`&self` method calls, both `check` and `find` return the engine
unchanged. -/
theorem c9_check_pure (hf hf2 : HashFinder) (s : List Char) (fuel : Nat)
    (ent : Nat → List Nat) (h : hf.target = hf2.target) :
    HashFinder.check hf s = HashFinder.check hf2 s ∧
    (HashFinder.checkCall hf s).2 = hf ∧
    (HashFinder.findCall hf fuel ent).2 = hf := by
  have heq : hf = hf2 := by
    cases hf
    cases hf2
    simp only [HashFinder.mk.injEq]
    exact h
  subst heq
  exact ⟨rfl, rfl, rfl⟩

/-- C9 witness: two engines holding the difficulty-3 threshold agree
on the repository's test vector and are unchanged by the calls. -/
theorem c9_witness :
    HashFinder.check (HashFinder.new 3) sv3 =
      HashFinder.check ⟨( HashPrefix.new 3).target⟩ sv3 ∧
    (HashFinder.checkCall (HashFinder.new 3) sv3).2 = HashFinder.new 3 ∧
    (HashFinder.findCall (HashFinder.new 3) 1 (fun _ => entropy17)).2 =
      HashFinder.new 3 :=
  c9_check_pure (HashFinder.new 3) ⟨( HashPrefix.new 3).target⟩ sv3 1
    (fun _ => entropy17) rfl

/-- C10 (confirmed): find/check round-trip: for every constructible
difficulty, hex-encoding a value returned by `find` and passing it to
`check` on the same engine yields `Ok(true)` — both use the same
digest-below-threshold predicate. -/
theorem c10_find_check_roundtrip (d : Nat) (hf : HashFinder)
    (_hc : HashFinder.newChecked d = some hf) (fuel : Nat) (ent : Nat → List Nat)
    (v : List Nat) (h : HashFinder.find hf fuel ent = some v) :
    HashFinder.check hf (hexEncode v) = .ok true := by
  obtain ⟨hlt, e, rfl⟩ := findG_eq_some blake2s hf.target fuel ent v h
  have hdec := decodeHex32_hexEncode (blake2s e) (blake2s_length e)
    (blake2s_bytes_lt e)
  unfold HashFinder.check
  simp only [hdec, hlt]

/-- C10 witness: the concrete difficulty-1 success round-trips. -/
theorem c10_witness :
    HashFinder.check (HashFinder.new 1) (hexEncode origin17) = .ok true :=
  c10_find_check_roundtrip 1 (HashFinder.new 1) (by decide) 1
    (fun _ => entropy17) origin17 (by decide)
